import Mathlib

/-!
Verification of the guideline batch converter (`main-llamaparse.py`).

The development shallowly embeds the orchestration logic of the script:
`natural_sort_key`, the per-guideline loop of `parse_guidelines`
(filtering `.pdf` entries, calling the extraction collaborator, writing
per-file artifacts, accumulating text for the master artifact), and the
top-level directory walk.  The remote parsing collaborator, the directory
listings and the success/failure of each file write are parameters of the
model; character handling (digits, lower-casing) is modelled over the
ASCII range, which is the range the Lean `Char` primitives cover and the
range relevant for the file names involved.
-/

/-- Model of Python `str.isdigit()` on a chunk: nonempty and all digits. -/
def pyIsDigit (l : List Char) : Bool :=
  !l.isEmpty && l.all (fun c => c.isDigit)

/-- Model of Python `int(text)` on a digit chunk: decimal value. -/
def pyInt (l : List Char) : Nat :=
  l.foldl (fun n c => 10 * n + (c.toNat - 48)) 0

/-- Model of Python `str.lower()` (ASCII range). -/
def pyLower (l : List Char) : List Char :=
  l.map Char.toLower

/-- One element of a natural-sort key: a lower-cased text chunk or an
integer parsed from a digit run (Python produces `str` or `int` here). -/
inductive NKey where
  | str : List Char → NKey
  | num : Nat → NKey
deriving DecidableEq

/-- `True` on the integer elements of a key. -/
def isNumK : NKey → Bool
  | .num _ => true
  | .str _ => false

/-- Model of `re.split(r'(\d+)', filename)`: the alternating list of
(possibly empty) non-digit chunks and maximal digit runs, text first and
text last, with the captured digit runs kept. -/
def splitDigits : List Char → List (List Char)
  | [] => [[]]
  | c :: cs =>
    if c.isDigit then
      match splitDigits cs with
      | [] :: run :: rest => [] :: (c :: run) :: rest
      | r => [] :: [c] :: r
    else
      match splitDigits cs with
      | t :: rest => (c :: t) :: rest
      | [] => [[c]]

/-- `int(text) if text.isdigit() else text.lower()` applied to one chunk. -/
def chunkKey (text : List Char) : NKey :=
  if pyIsDigit text then NKey.num (pyInt text) else NKey.str (pyLower text)

/-- `natural_sort_key` from the source: split the filename on digit runs
and turn each chunk into an integer or a lower-cased string. -/
def natural_sort_key (filename : String) : List NKey :=
  (splitDigits filename.data).map chunkKey

/-- Lexicographic `<=` on character lists, by code point (Python `str`
comparison). -/
def charsLeB : List Char → List Char → Bool
  | [], _ => true
  | _ :: _, [] => false
  | a :: as, b :: bs => if a = b then charsLeB as bs else decide (a < b)

/-- Ordering of key elements.  Python never compares an `int` key element
with a `str` one (keys alternate in lockstep, see the C9 theorem); the
cross cases here are arbitrary tie-offs making the relation total. -/
def nkeyLeB : NKey → NKey → Bool
  | .num m, .num n => decide (m ≤ n)
  | .str a, .str b => charsLeB a b
  | .num _, .str _ => true
  | .str _, .num _ => false

/-- Lexicographic `<=` on whole keys (Python list comparison). -/
def keyLeB : List NKey → List NKey → Bool
  | [], _ => true
  | _ :: _, [] => false
  | a :: as, b :: bs => if a = b then keyLeB as bs else nkeyLeB a b

/-- The sorting relation `sorted(..., key=key)` uses. -/
def keyRel {α : Type} (key : α → List NKey) (x y : α) : Prop :=
  keyLeB (key x) (key y) = true

instance {α : Type} (key : α → List NKey) : DecidableRel (keyRel key) :=
  fun x y => decEq (keyLeB (key x) (key y)) true

/-- Model of Python `sorted(l, key=key)`.  The sort of Python is the stable
ascending sort by the key order; a stable sort by a total preorder is
unique, so the stable `List.insertionSort` computes the same list. -/
def pySorted {α : Type} (key : α → List NKey) (l : List α) : List α :=
  List.insertionSort (keyRel key) l

/-- Model of `os.path.join(a, b)` for a relative component `b`. -/
def pathJoin (a b : String) : String :=
  a ++ "/" ++ b

/-- Model of `os.path.splitext(p)[0]`: everything before the last dot,
unless every character before that dot is itself a dot (then the name has
no extension and is returned whole). -/
def splitextBase (p : List Char) : List Char :=
  let rev := p.reverse
  let ext := rev.takeWhile (fun c => c != '.')
  if ext.length = rev.length then p
  else
    let base := rev.drop (ext.length + 1)
    if base.any (fun c => c != '.') then base.reverse else p

/-- Model of `pdf_file.endswith(".pdf")` (case-sensitive, like Python). -/
def endsWithPdf (l : List Char) : Bool :=
  ['.', 'p', 'd', 'f'].isSuffixOf l

/-- `"\n---\n".join(l)`. -/
def sepJoin (l : List String) : String :=
  String.intercalate "\n---\n" l

/-- The output path of the per-file artifact:
`os.path.join(output_guideline_path, f"(splitext(pdf_file)[0]).txt")`. -/
def outTxtPath (output_guideline_path : String) (pdf_file : String) : String :=
  pathJoin output_guideline_path (String.mk (splitextBase pdf_file.data) ++ ".txt")

/-- The outcome of `parser.load_data(file, ...)` on one PDF: either the
list of returned document texts, or the message of a raised exception. -/
inductive ExtractOutcome where
  | ok : List String → ExtractOutcome
  | error : String → ExtractOutcome
deriving DecidableEq

/-- One console line of the script. -/
inductive Event where
  | warnEmpty (file : String)
  | errorLog (file : String) (msg : String)
  | saved (path : String)
  | masterSaved (path : String)
deriving DecidableEq

/-- The mutable state of the loop of one guideline: the `combined_texts`
accumulator, the per-file artifact writes performed so far, and the
console lines printed so far. -/
structure GState where
  combined : List String
  writes : List (String × String)
  events : List Event
deriving DecidableEq

/-- The body of the per-file loop (source lines 59-83).  `extract` is the
collaborator keyed by the file name; `wRes p = some msg` means opening or
writing the artifact at `p` raises an exception with message `msg`
(caught by the same `except` branch as extraction failures), `none` means
the write succeeds.  Note the source appends to `combined_texts` (line
76) before attempting the artifact write (lines 77-78). -/
def stepFile (output_guideline_path : String) (extract : String → ExtractOutcome)
    (wRes : String → Option String) (st : GState) (pdf_file : String) : GState :=
  if endsWithPdf pdf_file.data then
    let output_txt_path := outTxtPath output_guideline_path pdf_file
    match extract pdf_file with
    | .error msg => { st with events := st.events ++ [.errorLog pdf_file msg] }
    | .ok documents =>
      if documents.isEmpty then
        { st with events := st.events ++ [.warnEmpty pdf_file] }
      else
        let page_text := sepJoin documents
        let st1 := { st with combined := st.combined ++ [page_text] }
        match wRes output_txt_path with
        | some msg => { st1 with events := st1.events ++ [.errorLog pdf_file msg] }
        | none =>
          { st1 with
            writes := st1.writes ++ [(output_txt_path, page_text)],
            events := st1.events ++ [.saved output_txt_path] }
  else st

/-- The result of processing one guideline folder. -/
structure GuidelineResult where
  combined : List String
  writes : List (String × String)
  events : List Event
  masterPath : String
  masterContent : String
deriving DecidableEq

/-- The per-guideline body of `parse_guidelines` (source lines 49-90):
sort the folder listing with `natural_sort_key`, run the per-file loop,
then write the `<guideline>_combined.txt` master artifact. -/
def processGuideline (output_directory guideline_folder : String)
    (listing : List String) (extract : String → ExtractOutcome)
    (wRes : String → Option String) : GuidelineResult :=
  let output_guideline_path := pathJoin output_directory guideline_folder
  let st := (pySorted natural_sort_key listing).foldl
    (stepFile output_guideline_path extract wRes) ⟨[], [], []⟩
  let master_txt_path :=
    pathJoin output_guideline_path (guideline_folder ++ "_combined.txt")
  { combined := st.combined
    writes := st.writes
    events := st.events ++ [.masterSaved master_txt_path]
    masterPath := master_txt_path
    masterContent := sepJoin st.combined }

/-- The top-level walk of `parse_guidelines` (source lines 46-51): every
entry of the input root that is a directory is processed as a guideline,
every other entry is skipped; the collaborator sees each PDF through its
path under that guideline folder. -/
def parse_guidelines (pdfs_directory output_directory : String)
    (rootListing : List String) (isDir : String → Bool)
    (listDir : String → List String) (extract : String → ExtractOutcome)
    (wRes : String → Option String) : List GuidelineResult :=
  rootListing.filterMap (fun guideline_folder =>
    if isDir (pathJoin pdfs_directory guideline_folder) then
      some (processGuideline output_directory guideline_folder
        (listDir (pathJoin pdfs_directory guideline_folder))
        (fun f => extract (pathJoin (pathJoin pdfs_directory guideline_folder) f))
        wRes)
    else none)

/-- The text a file contributes to `combined_texts`: present exactly when
the file is a `.pdf` and extraction returns a nonempty document list. -/
def successText (extract : String → ExtractOutcome) (f : String) : Option String :=
  if endsWithPdf f.data then
    match extract f with
    | .ok docs => if docs.isEmpty then none else some (sepJoin docs)
    | .error _ => none
  else none

/-- The per-file artifact write a file causes, if any. -/
def writeRecord (output_guideline_path : String) (extract : String → ExtractOutcome)
    (wRes : String → Option String) (f : String) : Option (String × String) :=
  if endsWithPdf f.data then
    match extract f with
    | .ok docs =>
      if docs.isEmpty then none
      else
        match wRes (outTxtPath output_guideline_path f) with
        | none => some (outTxtPath output_guideline_path f, sepJoin docs)
        | some _ => none
    | .error _ => none
  else none

/-- The console line a file causes, if any. -/
def fileEvent (output_guideline_path : String) (extract : String → ExtractOutcome)
    (wRes : String → Option String) (f : String) : Option Event :=
  if endsWithPdf f.data then
    match extract f with
    | .ok docs =>
      if docs.isEmpty then some (.warnEmpty f)
      else
        match wRes (outTxtPath output_guideline_path f) with
        | none => some (.saved (outTxtPath output_guideline_path f))
        | some msg => some (.errorLog f msg)
    | .error msg => some (.errorLog f msg)
  else none

/-- An abstract file store. -/
def FStore : Type := String → Option String

/-- Model of `open(p, "w").write(c)`: unconditional overwrite. -/
def fsWrite (p c : String) (fs : FStore) : FStore :=
  fun q => if q = p then some c else fs q

/-- Apply a sequence of writes in order. -/
def applyWrites : List (String × String) → FStore → FStore
  | [], fs => fs
  | w :: ws, fs => applyWrites ws (fsWrite w.1 w.2 fs)

/-- All file writes a guideline run performs, in order: the per-file
artifacts, then the master artifact. -/
def allWrites (r : GuidelineResult) : List (String × String) :=
  r.writes ++ [(r.masterPath, r.masterContent)]

/-- Model of `os.makedirs(p, exist_ok=True)` on a set of existing
directories: total (never an error), no change when already present. -/
def mkdirs (dirs : List String) (p : String) : List String :=
  if p ∈ dirs then dirs else dirs ++ [p]

/-! ### Order facts about the key comparison -/

lemma charsLeB_total : ∀ a b : List Char, charsLeB a b = true ∨ charsLeB b a = true
  | [], _ => Or.inl rfl
  | _ :: _, [] => Or.inr rfl
  | a :: as, b :: bs => by
    by_cases hab : a = b
    · subst hab
      simpa [charsLeB] using charsLeB_total as bs
    · rcases lt_or_gt_of_ne hab with h | h
      · exact Or.inl (by simp [charsLeB, hab, h])
      · exact Or.inr (by simp [charsLeB, Ne.symm hab, h])

lemma charsLeB_antisymm : ∀ a b : List Char,
    charsLeB a b = true → charsLeB b a = true → a = b
  | [], [], _, _ => rfl
  | [], _ :: _, _, h2 => by simp [charsLeB] at h2
  | _ :: _, [], h1, _ => by simp [charsLeB] at h1
  | a :: as, b :: bs, h1, h2 => by
    by_cases hab : a = b
    · subst hab
      simp only [charsLeB, if_pos rfl] at h1 h2
      rw [charsLeB_antisymm as bs h1 h2]
    · simp only [charsLeB, if_neg hab, decide_eq_true_eq] at h1
      simp only [charsLeB, if_neg (Ne.symm hab), decide_eq_true_eq] at h2
      exact absurd h2 (lt_asymm h1)

lemma charsLeB_trans : ∀ a b c : List Char,
    charsLeB a b = true → charsLeB b c = true → charsLeB a c = true
  | [], _, _, _, _ => rfl
  | _ :: _, [], _, h1, _ => by simp [charsLeB] at h1
  | _ :: _, _ :: _, [], _, h2 => by simp [charsLeB] at h2
  | a :: as, b :: bs, c :: cs, h1, h2 => by
    by_cases hab : a = b <;> by_cases hbc : b = c
    · subst hab; subst hbc
      simp only [charsLeB, if_pos rfl] at h1 h2 ⊢
      exact charsLeB_trans as bs cs h1 h2
    · subst hab
      simpa [charsLeB, hbc] using h2
    · subst hbc
      simpa [charsLeB, hab] using h1
    · simp only [charsLeB, if_neg hab, decide_eq_true_eq] at h1
      simp only [charsLeB, if_neg hbc, decide_eq_true_eq] at h2
      have hac : a < c := lt_trans h1 h2
      simp [charsLeB, ne_of_lt hac, hac]

lemma nkeyLeB_total : ∀ a b : NKey, nkeyLeB a b = true ∨ nkeyLeB b a = true
  | .num m, .num n => by
    rcases Nat.le_total m n with h | h
    · exact Or.inl (by simp [nkeyLeB, h])
    · exact Or.inr (by simp [nkeyLeB, h])
  | .str a, .str b => charsLeB_total a b
  | .num _, .str _ => Or.inl rfl
  | .str _, .num _ => Or.inr rfl

lemma nkeyLeB_antisymm : ∀ a b : NKey,
    nkeyLeB a b = true → nkeyLeB b a = true → a = b
  | .num m, .num n, h1, h2 => by
    simp only [nkeyLeB, decide_eq_true_eq] at h1 h2
    rw [Nat.le_antisymm h1 h2]
  | .str a, .str b, h1, h2 => by rw [charsLeB_antisymm a b h1 h2]
  | .num _, .str _, _, h2 => by simp [nkeyLeB] at h2
  | .str _, .num _, h1, _ => by simp [nkeyLeB] at h1

lemma nkeyLeB_trans : ∀ a b c : NKey,
    nkeyLeB a b = true → nkeyLeB b c = true → nkeyLeB a c = true
  | .num _, .num _, .num _, h1, h2 => by
    simp only [nkeyLeB, decide_eq_true_eq] at h1 h2 ⊢
    exact Nat.le_trans h1 h2
  | .str a, .str b, .str c, h1, h2 => charsLeB_trans a b c h1 h2
  | .num _, _, .str _, _, _ => rfl
  | .str _, .num _, _, h1, _ => by simp [nkeyLeB] at h1
  | .str _, .str _, .num _, _, h2 => by simp [nkeyLeB] at h2
  | .num _, .str _, .num _, h1, h2 => by simp [nkeyLeB] at h2

lemma keyLeB_total : ∀ a b : List NKey, keyLeB a b = true ∨ keyLeB b a = true
  | [], _ => Or.inl rfl
  | _ :: _, [] => Or.inr rfl
  | a :: as, b :: bs => by
    by_cases hab : a = b
    · subst hab
      simpa [keyLeB] using keyLeB_total as bs
    · rcases nkeyLeB_total a b with h | h
      · exact Or.inl (by simp [keyLeB, hab, h])
      · exact Or.inr (by simp [keyLeB, Ne.symm hab, h])

lemma keyLeB_antisymm : ∀ a b : List NKey,
    keyLeB a b = true → keyLeB b a = true → a = b
  | [], [], _, _ => rfl
  | [], _ :: _, _, h2 => by simp [keyLeB] at h2
  | _ :: _, [], h1, _ => by simp [keyLeB] at h1
  | a :: as, b :: bs, h1, h2 => by
    by_cases hab : a = b
    · subst hab
      simp only [keyLeB, if_pos rfl] at h1 h2
      rw [keyLeB_antisymm as bs h1 h2]
    · simp only [keyLeB, if_neg hab] at h1
      simp only [keyLeB, if_neg (Ne.symm hab)] at h2
      exact absurd (nkeyLeB_antisymm a b h1 h2) hab

lemma keyLeB_trans : ∀ a b c : List NKey,
    keyLeB a b = true → keyLeB b c = true → keyLeB a c = true
  | [], _, _, _, _ => rfl
  | _ :: _, [], _, h1, _ => by simp [keyLeB] at h1
  | _ :: _, _ :: _, [], _, h2 => by simp [keyLeB] at h2
  | a :: as, b :: bs, c :: cs, h1, h2 => by
    by_cases hab : a = b <;> by_cases hbc : b = c
    · subst hab; subst hbc
      simp only [keyLeB, if_pos rfl] at h1 h2 ⊢
      exact keyLeB_trans as bs cs h1 h2
    · subst hab
      simpa [keyLeB, hbc] using h2
    · subst hbc
      simpa [keyLeB, hab] using h1
    · simp only [keyLeB, if_neg hab] at h1
      simp only [keyLeB, if_neg hbc] at h2
      have hac : nkeyLeB a c = true := nkeyLeB_trans a b c h1 h2
      by_cases hac' : a = c
      · subst hac'
        exact absurd (nkeyLeB_antisymm a b h1 h2) hab
      · simp [keyLeB, hac', hac]

/-! ### Sorting facts -/

lemma keyRel_total {α : Type} (key : α → List NKey) : IsTotal α (keyRel key) :=
  ⟨fun a b => keyLeB_total (key a) (key b)⟩

lemma keyRel_trans {α : Type} (key : α → List NKey) : IsTrans α (keyRel key) :=
  ⟨fun a b c => keyLeB_trans (key a) (key b) (key c)⟩

lemma pySorted_perm {α : Type} (key : α → List NKey) (l : List α) :
    List.Perm (pySorted key l) l :=
  List.perm_insertionSort (keyRel key) l

lemma pySorted_sorted {α : Type} (key : α → List NKey) (l : List α) :
    List.Sorted (keyRel key) (pySorted key l) := by
  haveI := keyRel_total key
  haveI := keyRel_trans key
  exact List.sorted_insertionSort (keyRel key) l

/-- Two sorted lists that are permutations of each other and whose
elements have pairwise distinct keys are equal. -/
lemma sorted_perm_eq_of_inj {α : Type} (key : α → List NKey) :
    ∀ l1 l2 : List α, List.Perm l1 l2 →
      List.Pairwise (keyRel key) l1 → List.Pairwise (keyRel key) l2 →
      List.Pairwise (fun x y => key x ≠ key y) l1 → l1 = l2
  | [], l2, hp, _, _, _ => hp.nil_eq
  | a :: t1, [], hp, _, _, _ => by
    have := hp.symm.nil_eq
    exact absurd this.symm (by simp)
  | a :: t1, b :: t2, hp, hs1, hs2, hinj => by
    by_cases hab : a = b
    · subst hab
      have ht := sorted_perm_eq_of_inj key t1 t2 ((List.perm_cons a).mp hp)
        (List.Pairwise.of_cons hs1) (List.Pairwise.of_cons hs2)
        (List.Pairwise.of_cons hinj)
      rw [ht]
    · exfalso
      have hbmem : b ∈ a :: t1 := hp.symm.subset (List.mem_cons_self b t2)
      have hamem : a ∈ b :: t2 := hp.subset (List.mem_cons_self a t1)
      have hb1 : b ∈ t1 := by
        rcases List.mem_cons.mp hbmem with h | h
        · exact absurd h.symm hab
        · exact h
      have ha2 : a ∈ t2 := by
        rcases List.mem_cons.mp hamem with h | h
        · exact absurd h hab
        · exact h
      have h1 : keyLeB (key a) (key b) = true :=
        (List.pairwise_cons.mp hs1).1 b hb1
      have h2 : keyLeB (key b) (key a) = true :=
        (List.pairwise_cons.mp hs2).1 a ha2
      exact (List.pairwise_cons.mp hinj).1 b hb1 (keyLeB_antisymm _ _ h1 h2)

/-- Sorting two listings of the same files gives the same order whenever
no two of the files share a natural-sort key. -/
lemma pySorted_eq_of_perm {α : Type} (key : α → List NKey) (l1 l2 : List α)
    (hp : List.Perm l1 l2)
    (hinj : List.Pairwise (fun x y => key x ≠ key y) l1) :
    pySorted key l1 = pySorted key l2 := by
  have hperm : List.Perm (pySorted key l1) (pySorted key l2) :=
    ((pySorted_perm key l1).trans hp).trans (pySorted_perm key l2).symm
  have hinj1 : List.Pairwise (fun x y => key x ≠ key y) (pySorted key l1) :=
    ((pySorted_perm key l1).pairwise_iff (fun h => Ne.symm h)).mpr hinj
  exact sorted_perm_eq_of_inj key _ _ hperm
    (pySorted_sorted key l1) (pySorted_sorted key l2) hinj1

/-! ### Characterizing the per-guideline loop -/

lemma stepFile_eq (outDir : String) (extract : String → ExtractOutcome)
    (wRes : String → Option String) (st : GState) (f : String) :
    stepFile outDir extract wRes st f =
      { combined := st.combined ++ (successText extract f).toList
        writes := st.writes ++ (writeRecord outDir extract wRes f).toList
        events := st.events ++ (fileEvent outDir extract wRes f).toList } := by
  unfold stepFile successText writeRecord fileEvent
  cases hpdf : endsWithPdf f.data
  · simp
  · simp only [if_pos rfl]
    cases hex : extract f with
    | error msg => simp
    | ok docs =>
      cases docs with
      | nil => simp
      | cons d ds =>
        cases hw : wRes (outTxtPath outDir f) <;> simp

lemma cons_filterMap {β : Type} (g : String → Option β) (f : String)
    (fs : List String) :
    (f :: fs).filterMap g = (g f).toList ++ fs.filterMap g := by
  cases h : g f <;> simp [List.filterMap_cons, h]

lemma foldl_stepFile (outDir : String) (extract : String → ExtractOutcome)
    (wRes : String → Option String) :
    ∀ (files : List String) (st : GState),
    files.foldl (stepFile outDir extract wRes) st =
      { combined := st.combined ++ files.filterMap (successText extract)
        writes := st.writes ++ files.filterMap (writeRecord outDir extract wRes)
        events := st.events ++ files.filterMap (fileEvent outDir extract wRes) }
  | [], st => by simp
  | f :: fs, st => by
    rw [List.foldl_cons, stepFile_eq, foldl_stepFile outDir extract wRes fs]
    simp [cons_filterMap, List.append_assoc]

lemma processGuideline_combined (out g : String) (listing : List String)
    (extract : String → ExtractOutcome) (wRes : String → Option String) :
    (processGuideline out g listing extract wRes).combined
      = (pySorted natural_sort_key listing).filterMap (successText extract) := by
  simp [processGuideline, foldl_stepFile]

lemma processGuideline_master (out g : String) (listing : List String)
    (extract : String → ExtractOutcome) (wRes : String → Option String) :
    (processGuideline out g listing extract wRes).masterContent
      = sepJoin ((pySorted natural_sort_key listing).filterMap (successText extract)) := by
  simp [processGuideline, foldl_stepFile]

lemma processGuideline_writes (out g : String) (listing : List String)
    (extract : String → ExtractOutcome) (wRes : String → Option String) :
    (processGuideline out g listing extract wRes).writes
      = (pySorted natural_sort_key listing).filterMap
          (writeRecord (pathJoin out g) extract wRes) := by
  simp [processGuideline, foldl_stepFile]

lemma processGuideline_masterPath (out g : String) (listing : List String)
    (extract : String → ExtractOutcome) (wRes : String → Option String) :
    (processGuideline out g listing extract wRes).masterPath
      = pathJoin (pathJoin out g) (g ++ "_combined.txt") := rfl

/-! ### Skipping and congruence lemmas -/

lemma stepFile_not_pdf (outDir : String) (extract : String → ExtractOutcome)
    (wRes : String → Option String) (st : GState) (f : String)
    (h : endsWithPdf f.data = false) :
    stepFile outDir extract wRes st f = st := by
  unfold stepFile
  rw [h]
  simp

lemma stepFile_congr (outDir : String) (e1 e2 : String → ExtractOutcome)
    (wRes : String → Option String) (st : GState) (f : String)
    (h : endsWithPdf f.data = true → e1 f = e2 f) :
    stepFile outDir e1 wRes st f = stepFile outDir e2 wRes st f := by
  unfold stepFile
  cases hpdf : endsWithPdf f.data
  · simp
  · rw [h hpdf]

lemma foldl_stepFile_congr (outDir : String) (e1 e2 : String → ExtractOutcome)
    (wRes : String → Option String) :
    ∀ (files : List String) (st : GState),
    (∀ f ∈ files, endsWithPdf f.data = true → e1 f = e2 f) →
    files.foldl (stepFile outDir e1 wRes) st = files.foldl (stepFile outDir e2 wRes) st
  | [], _, _ => rfl
  | f :: fs, st, h => by
    rw [List.foldl_cons, List.foldl_cons,
      stepFile_congr outDir e1 e2 wRes st f (h f (List.mem_cons_self f fs)),
      foldl_stepFile_congr outDir e1 e2 wRes fs _
        (fun x hx => h x (List.mem_cons_of_mem f hx))]

lemma processGuideline_extract_congr (out g : String) (listing : List String)
    (e1 e2 : String → ExtractOutcome) (wRes : String → Option String)
    (h : ∀ f, endsWithPdf f.data = true → e1 f = e2 f) :
    processGuideline out g listing e1 wRes = processGuideline out g listing e2 wRes := by
  simp only [processGuideline]
  rw [foldl_stepFile_congr (pathJoin out g) e1 e2 wRes
    (pySorted natural_sort_key listing) _ (fun f _ => h f)]

lemma processGuideline_listing_eq (out g : String) (l1 l2 : List String)
    (extract : String → ExtractOutcome) (wRes : String → Option String)
    (h : pySorted natural_sort_key l1 = pySorted natural_sort_key l2) :
    processGuideline out g l1 extract wRes = processGuideline out g l2 extract wRes := by
  unfold processGuideline
  rw [h]

/-! ### Model of the file store -/

lemma applyWrites_agree :
    ∀ (ws : List (String × String)) (fs gs : FStore) (q : String),
    (fs q = gs q ∨ q ∈ ws.map Prod.fst) →
    applyWrites ws fs q = applyWrites ws gs q
  | [], fs, gs, q, h => by
    rcases h with h | h
    · exact h
    · simp at h
  | (p, c) :: ws, fs, gs, q, h => by
    show applyWrites ws (fsWrite p c fs) q = applyWrites ws (fsWrite p c gs) q
    apply applyWrites_agree ws
    by_cases hq : q = p
    · subst hq
      left
      simp [fsWrite]
    · rcases h with h | h
      · left
        simpa [fsWrite, hq] using h
      · rw [List.map_cons] at h
        rcases List.mem_cons.mp h with h' | h'
        · exact absurd h' hq
        · exact Or.inr h'

lemma applyWrites_not_mem :
    ∀ (ws : List (String × String)) (fs : FStore) (q : String),
    q ∉ ws.map Prod.fst → applyWrites ws fs q = fs q
  | [], _, _, _ => rfl
  | (p, c) :: ws, fs, q, h => by
    have hq : q ≠ p := by
      intro hqp
      exact h (by simp [hqp])
    have hws : q ∉ ws.map Prod.fst := by
      intro hmem
      exact h (by simp [hmem])
    show applyWrites ws (fsWrite p c fs) q = fs q
    rw [applyWrites_not_mem ws _ q hws]
    simp [fsWrite, hq]

lemma applyWrites_idem (ws : List (String × String)) (fs : FStore) (q : String) :
    applyWrites ws (applyWrites ws fs) q = applyWrites ws fs q := by
  by_cases h : q ∈ ws.map Prod.fst
  · exact applyWrites_agree ws _ _ q (Or.inr h)
  · exact applyWrites_agree ws _ _ q (Or.inl (applyWrites_not_mem ws fs q h))

/-! ### Structure of the digit split -/

/-- A chunk with no digit characters. -/
def NoDigits (l : List Char) : Prop := ∀ c ∈ l, c.isDigit = false

/-- A nonempty chunk of digit characters only. -/
def DigitRun (l : List Char) : Prop := l ≠ [] ∧ ∀ c ∈ l, c.isDigit = true

/-- The split alternates: text chunk, digit run, text chunk, ...,
beginning and ending with a (possibly empty) text chunk. -/
def ChunksAlt : List (List Char) → Prop
  | [] => False
  | [t] => NoDigits t
  | t :: d :: rest => NoDigits t ∧ DigitRun d ∧ ChunksAlt rest

lemma chunksAlt_splitDigits : ∀ l : List Char, ChunksAlt (splitDigits l)
  | [] => by
    show NoDigits []
    intro c hc
    exact absurd hc (List.not_mem_nil c)
  | c :: cs => by
    have ih := chunksAlt_splitDigits cs
    rw [splitDigits]
    cases hd : c.isDigit
    · rw [if_neg (by simp)]
      rcases hr : splitDigits cs with _ | ⟨t, rest⟩
      · rw [hr] at ih
        exact absurd ih (by simp [ChunksAlt])
      · rw [hr] at ih
        rcases rest with _ | ⟨d, rest'⟩
        · show NoDigits (c :: t)
          intro x hx
          rcases List.mem_cons.mp hx with h | h
          · rw [h]; exact hd
          · exact ih x h
        · rcases ih with ⟨ht, hdr, hrest⟩
          refine ⟨?_, hdr, hrest⟩
          intro x hx
          rcases List.mem_cons.mp hx with h | h
          · rw [h]; exact hd
          · exact ht x h
    · simp only [if_pos rfl]
      rcases hr : splitDigits cs with _ | ⟨t, rest⟩
      · rw [hr] at ih
        exact absurd ih (by simp [ChunksAlt])
      · rw [hr] at ih
        rcases rest with _ | ⟨d, rest'⟩
        · rcases t with _ | ⟨x, xs⟩
          · exact ⟨fun x hx => absurd hx (List.not_mem_nil x),
              ⟨by simp, fun x hx => by
                rcases List.mem_cons.mp hx with h | h
                · rw [h]; exact hd
                · exact absurd h (List.not_mem_nil x)⟩,
              ih⟩
          · exact ⟨fun y hy => absurd hy (List.not_mem_nil y),
              ⟨by simp, fun y hy => by
                rcases List.mem_cons.mp hy with h | h
                · rw [h]; exact hd
                · exact absurd h (List.not_mem_nil y)⟩,
              ih⟩
        · rcases t with _ | ⟨x, xs⟩
          · rcases ih with ⟨ht, ⟨hdne, hdall⟩, hrest⟩
            exact ⟨ht, ⟨by simp, fun y hy => by
              rcases List.mem_cons.mp hy with h | h
              · rw [h]; exact hd
              · exact hdall y h⟩, hrest⟩
          · exact ⟨fun y hy => absurd hy (List.not_mem_nil y),
              ⟨by simp, fun y hy => by
                rcases List.mem_cons.mp hy with h | h
                · rw [h]; exact hd
                · exact absurd h (List.not_mem_nil y)⟩,
              ih⟩

lemma splitDigits_flatten : ∀ l : List Char, (splitDigits l).flatten = l
  | [] => rfl
  | c :: cs => by
    have ih := splitDigits_flatten cs
    rw [splitDigits]
    cases hd : c.isDigit
    · rw [if_neg (by simp)]
      rcases hr : splitDigits cs with _ | ⟨t, rest⟩
      · rw [hr] at ih
        simp at ih
        simp [ih]
      · rw [hr] at ih
        simp only [List.flatten_cons] at ih ⊢
        rw [List.cons_append, ih]
    · simp only [if_pos rfl]
      rcases hr : splitDigits cs with _ | ⟨t, rest⟩
      · rw [hr] at ih
        simp at ih
        simp [ih]
      · rcases t with _ | ⟨x, xs⟩
        · rcases rest with _ | ⟨d, rest'⟩
          · rw [hr] at ih
            simp at ih
            simp [ih]
          · rw [hr] at ih
            simp only [List.flatten_cons, List.nil_append] at ih
            simp [ih]
        · rw [hr] at ih
          simp only [List.flatten_cons] at ih ⊢
          simp [ih]

lemma chunksAlt_length : ∀ chunks, ChunksAlt chunks → chunks.length % 2 = 1
  | [], h => absurd h (by simp [ChunksAlt])
  | [_], _ => rfl
  | _ :: _ :: rest, h => by
    have := chunksAlt_length rest h.2.2
    simp only [List.length_cons]
    omega

lemma chunksAlt_get : ∀ chunks, ChunksAlt chunks →
    ∀ i (h : i < chunks.length),
    (i % 2 = 0 → NoDigits (chunks.get ⟨i, h⟩)) ∧
    (i % 2 = 1 → DigitRun (chunks.get ⟨i, h⟩))
  | [], halt, _, _ => absurd halt (by simp [ChunksAlt])
  | [t], halt, 0, _ => ⟨fun _ => halt, fun h1 => by simp at h1⟩
  | [t], _, i + 1, h => by
    simp at h
  | t :: d :: rest, halt, 0, _ => ⟨fun _ => halt.1, fun h1 => by simp at h1⟩
  | t :: d :: rest, halt, 1, _ => ⟨fun h0 => by simp at h0, fun _ => halt.2.1⟩
  | t :: d :: rest, halt, i + 2, h => by
    have hlt : i < rest.length := by
      simp only [List.length_cons] at h
      omega
    have ih := chunksAlt_get rest halt.2.2 i hlt
    have hmod0 : (i + 2) % 2 = i % 2 := by omega
    constructor
    · intro h0
      exact ih.1 (by omega)
    · intro h1
      exact ih.2 (by omega)

lemma noDigits_chunkKey (t : List Char) (h : NoDigits t) :
    chunkKey t = NKey.str (pyLower t) := by
  unfold chunkKey
  rcases t with _ | ⟨c, cs⟩
  · simp [pyIsDigit]
  · rw [if_neg]
    simp only [pyIsDigit, Bool.and_eq_true, List.all_eq_true]
    intro hcon
    have := hcon.2 c (List.mem_cons_self c cs)
    rw [h c (List.mem_cons_self c cs)] at this
    exact Bool.false_ne_true this

lemma digitRun_chunkKey (d : List Char) (h : DigitRun d) :
    chunkKey d = NKey.num (pyInt d) := by
  unfold chunkKey
  rw [if_pos]
  rcases h with ⟨hne, hall⟩
  rcases d with _ | ⟨c, cs⟩
  · exact absurd rfl hne
  · simp only [pyIsDigit, Bool.and_eq_true, List.all_eq_true]
    exact ⟨by simp, fun x hx => hall x hx⟩

lemma natural_sort_key_isNum (s : String) :
    ∀ i (h : i < (natural_sort_key s).length),
    isNumK ((natural_sort_key s).get ⟨i, h⟩) = decide (i % 2 = 1) := by
  intro i h
  have hlen : (natural_sort_key s).length = (splitDigits s.data).length := by
    simp [natural_sort_key]
  have hlt : i < (splitDigits s.data).length := hlen ▸ h
  have hget : (natural_sort_key s).get ⟨i, h⟩
      = chunkKey ((splitDigits s.data).get ⟨i, hlt⟩) := by
    simp [natural_sort_key]
  have halt := chunksAlt_get (splitDigits s.data) (chunksAlt_splitDigits s.data) i hlt
  rcases Nat.mod_two_eq_zero_or_one i with hmod | hmod
  · rw [hget, noDigits_chunkKey _ (halt.1 hmod)]
    simp [isNumK, hmod]
  · rw [hget, digitRun_chunkKey _ (halt.2 hmod)]
    simp [isNumK, hmod]

lemma natural_sort_key_length_odd (s : String) :
    (natural_sort_key s).length % 2 = 1 := by
  have : (natural_sort_key s).length = (splitDigits s.data).length := by
    simp [natural_sort_key]
  rw [this]
  exact chunksAlt_length (splitDigits s.data) (chunksAlt_splitDigits s.data)

lemma filterMap_congr_mem {α β : Type} (g1 g2 : α → Option β) :
    ∀ l : List α, (∀ a ∈ l, g1 a = g2 a) → l.filterMap g1 = l.filterMap g2
  | [], _ => rfl
  | a :: as, h => by
    rw [List.filterMap_cons, List.filterMap_cons,
      h a (List.mem_cons_self a as),
      filterMap_congr_mem g1 g2 as (fun x hx => h x (List.mem_cons_of_mem a hx))]

/-! ### The claims -/

/-- C3: `natural_sort_key` splits the filename on runs of digits into an
alternating sequence of lower-cased text chunks and integers parsed from
the digit runs (the chunks reassemble to the filename, digit runs map to
their numeric value, text chunks are lower-cased), and sorting by this
key orders embedded numbers numerically; in particular it orders
`["p2.pdf", "p10.pdf", "p1.pdf"]` as `["p1.pdf", "p2.pdf", "p10.pdf"]`. -/
theorem c3_natural_sort_key :
    (∀ l : List Char, (splitDigits l).flatten = l) ∧
    (∀ s : String, natural_sort_key s = (splitDigits s.data).map chunkKey) ∧
    natural_sort_key "p10.pdf"
      = [NKey.str ['p'], NKey.num 10, NKey.str ['.', 'p', 'd', 'f']] ∧
    natural_sort_key "Ab2cd"
      = [NKey.str ['a', 'b'], NKey.num 2, NKey.str ['c', 'd']] ∧
    pySorted natural_sort_key ["p2.pdf", "p10.pdf", "p1.pdf"]
      = ["p1.pdf", "p2.pdf", "p10.pdf"] :=
  ⟨splitDigits_flatten, fun _ => rfl, by decide, by decide, by decide⟩

/-- C9: every natural-sort key is an odd-length sequence strictly
alternating text chunk, integer, text chunk, ..., beginning and ending
with a (possibly empty) text chunk, so any position compared during
sorting pairs a string with a string or an integer with an integer. -/
theorem c9_key_alternation (s : String) :
    ((natural_sort_key s).length % 2 = 1 ∧
      ∀ i (h : i < (natural_sort_key s).length),
        isNumK ((natural_sort_key s).get ⟨i, h⟩) = decide (i % 2 = 1)) ∧
    ∀ (t : String) (i : Nat) (hs : i < (natural_sort_key s).length)
      (ht : i < (natural_sort_key t).length),
      isNumK ((natural_sort_key s).get ⟨i, hs⟩)
        = isNumK ((natural_sort_key t).get ⟨i, ht⟩) := by
  refine ⟨⟨natural_sort_key_length_odd s, natural_sort_key_isNum s⟩, ?_⟩
  intro t i hs ht
  rw [natural_sort_key_isNum s i hs, natural_sort_key_isNum t i ht]

/-- Witness for C9 at `s = "a1b"`, `t = "zz9"`, `i = 0` and `i = 1`. -/
theorem c9_key_alternation_witness :
    isNumK ((natural_sort_key "a1b").get ⟨1, by decide⟩) = decide (1 % 2 = 1) ∧
    isNumK ((natural_sort_key "a1b").get ⟨0, by decide⟩)
      = isNumK ((natural_sort_key "zz9").get ⟨0, by decide⟩) := by
  have h := c9_key_alternation "a1b"
  exact ⟨h.1.2 1 (by decide), h.2 "zz9" 0 (by decide) (by decide)⟩

/-- C10: the `.pdf` filter is case-sensitive: a file whose name ends in
an upper- or mixed-case variant such as `.PDF` fails the suffix test and
is skipped with no extraction, no artifact, no accumulator entry and no
console line. -/
theorem c10_case_sensitive :
    endsWithPdf "a.PDF".data = false ∧
    endsWithPdf "a.Pdf".data = false ∧
    endsWithPdf "a.pdf".data = true ∧
    ∀ (outDir : String) (extract : String → ExtractOutcome)
      (wRes : String → Option String) (st : GState) (f : String),
      endsWithPdf f.data = false → stepFile outDir extract wRes st f = st :=
  ⟨by decide, by decide, by decide, stepFile_not_pdf⟩

/-- Witness for C10: an uppercase `.PDF` file leaves the loop state
untouched even though extraction would succeed. -/
theorem c10_case_sensitive_witness :
    stepFile "./output/g" (fun _ => ExtractOutcome.ok ["X"]) (fun _ => none)
      ⟨[], [], []⟩ "a.PDF" = ⟨[], [], []⟩ :=
  c10_case_sensitive.2.2.2 "./output/g" (fun _ => ExtractOutcome.ok ["X"])
    (fun _ => none) ⟨[], [], []⟩ "a.PDF" (by decide)

/-- C7: output directories are created if absent and reused without
error if present (`mkdirs` is total and idempotent), a write overwrites
whatever was at the path, and re-applying the writes of a run to the
file store changes nothing (re-running on unchanged input produces
byte-identical per-file and master artifacts). -/
theorem c7_idempotent_outputs :
    (∀ (dirs : List String) (p : String), mkdirs (mkdirs dirs p) p = mkdirs dirs p) ∧
    (∀ (fs : FStore) (p c : String), fsWrite p c fs p = some c) ∧
    (∀ (out g : String) (listing : List String) (extract : String → ExtractOutcome)
      (wRes : String → Option String) (fs : FStore) (q : String),
      applyWrites (allWrites (processGuideline out g listing extract wRes))
          (applyWrites (allWrites (processGuideline out g listing extract wRes)) fs) q
        = applyWrites (allWrites (processGuideline out g listing extract wRes)) fs q) := by
  refine ⟨?_, ?_, ?_⟩
  · intro dirs p
    by_cases h : p ∈ dirs
    · simp [mkdirs, h]
    · simp [mkdirs, h]
  · intro fs p c
    simp [fsWrite]
  · intro out g listing extract wRes fs q
    exact applyWrites_idem _ fs q

/-- C1 (amended): the master artifact equals the `"\n---\n"`-join of the
per-file joined texts of exactly the successfully extracted documents in
the order of the stable natural sort of the folder listing; this order
is independent of the filesystem listing order whenever no two filenames
in the folder share a natural-sort key. -/
theorem c1_master_artifact (out g : String) (listing : List String)
    (extract : String → ExtractOutcome) (wRes : String → Option String) :
    (processGuideline out g listing extract wRes).masterContent
      = sepJoin ((pySorted natural_sort_key listing).filterMap (successText extract)) ∧
    ∀ l2 : List String, List.Perm listing l2 →
      List.Pairwise (fun x y => natural_sort_key x ≠ natural_sort_key y) listing →
      processGuideline out g listing extract wRes
        = processGuideline out g l2 extract wRes := by
  constructor
  · exact processGuideline_master out g listing extract wRes
  · intro l2 hp hinj
    exact processGuideline_listing_eq out g listing l2 extract wRes
      (pySorted_eq_of_perm natural_sort_key listing l2 hp hinj)

/-- Witness for C1 at a concrete two-file folder listed in two orders. -/
theorem c1_master_artifact_witness :
    (processGuideline "./output" "g" ["a2.pdf", "a1.pdf"]
        (fun f => ExtractOutcome.ok [f]) (fun _ => none)).masterContent
      = sepJoin ((pySorted natural_sort_key ["a2.pdf", "a1.pdf"]).filterMap
          (successText (fun f => ExtractOutcome.ok [f]))) ∧
    processGuideline "./output" "g" ["a2.pdf", "a1.pdf"]
        (fun f => ExtractOutcome.ok [f]) (fun _ => none)
      = processGuideline "./output" "g" ["a1.pdf", "a2.pdf"]
        (fun f => ExtractOutcome.ok [f]) (fun _ => none) := by
  have h := c1_master_artifact "./output" "g" ["a2.pdf", "a1.pdf"]
    (fun f => ExtractOutcome.ok [f]) (fun _ => none)
  exact ⟨h.1, h.2 ["a1.pdf", "a2.pdf"] (by decide) (by decide)⟩

/-- Counterexample to C1 as stated: `"a1.pdf"` and `"a01.pdf"` have equal
natural-sort keys, so the (stable) sort keeps them in filesystem listing
order and the master artifact depends on that order. -/
theorem c1_counterexample :
    List.Perm ["a1.pdf", "a01.pdf"] ["a01.pdf", "a1.pdf"] ∧
    (processGuideline "./output" "g" ["a1.pdf", "a01.pdf"]
        (fun f => if f = "a1.pdf" then ExtractOutcome.ok ["A"] else ExtractOutcome.ok ["B"])
        (fun _ => none)).masterContent
      ≠ (processGuideline "./output" "g" ["a01.pdf", "a1.pdf"]
        (fun f => if f = "a1.pdf" then ExtractOutcome.ok ["A"] else ExtractOutcome.ok ["B"])
        (fun _ => none)).masterContent := by
  decide

/-- C2: a PDF whose extraction succeeds with a nonempty document list,
and whose write does not raise, gets a per-file artifact under the
output directory of the guideline, named after its base name with a `.txt`
extension, containing the page texts joined with the separator; pages
`["X", "Y"]` yield exactly `"X\n---\nY"`. -/
theorem c2_per_file_artifact (out g : String) (listing : List String)
    (extract : String → ExtractOutcome) (wRes : String → Option String)
    (f : String) (docs : List String)
    (hmem : f ∈ listing) (hpdf : endsWithPdf f.data = true)
    (hex : extract f = ExtractOutcome.ok docs) (hne : docs ≠ [])
    (hw : wRes (outTxtPath (pathJoin out g) f) = none) :
    (outTxtPath (pathJoin out g) f, sepJoin docs)
      ∈ (processGuideline out g listing extract wRes).writes ∧
    sepJoin ["X", "Y"] = "X\n---\nY" := by
  constructor
  · rw [processGuideline_writes]
    apply List.mem_filterMap.mpr
    refine ⟨f, (pySorted_perm natural_sort_key listing).mem_iff.mpr hmem, ?_⟩
    rcases docs with _ | ⟨d, ds⟩
    · exact absurd rfl hne
    · simp [writeRecord, hpdf, hex, hw]
  · rfl

/-- Witness for C2 at a folder where `a1.pdf` succeeds with pages
`["X", "Y"]` and `a2.pdf` fails. -/
theorem c2_per_file_artifact_witness :
    (outTxtPath (pathJoin "./output" "g") "a1.pdf", sepJoin ["X", "Y"])
      ∈ (processGuideline "./output" "g" ["a1.pdf", "a2.pdf"]
          (fun f => if f = "a1.pdf" then ExtractOutcome.ok ["X", "Y"]
            else ExtractOutcome.error "boom")
          (fun _ => none)).writes ∧
    sepJoin ["X", "Y"] = "X\n---\nY" :=
  c2_per_file_artifact "./output" "g" ["a1.pdf", "a2.pdf"]
    (fun f => if f = "a1.pdf" then ExtractOutcome.ok ["X", "Y"]
      else ExtractOutcome.error "boom")
    (fun _ => none) "a1.pdf" ["X", "Y"]
    (by decide) (by decide) (by decide) (by decide) (by decide)

/-- Counterexample to C4 as stated: the source appends the joined text
to `combined_texts` (line 76) before writing the per-file artifact
(lines 77-78), so when the write raises, no per-file artifact exists yet
the text still reaches the master artifact. -/
theorem c4_counterexample :
    (processGuideline "./output" "g" ["a1.pdf"]
        (fun _ => ExtractOutcome.ok ["X"]) (fun _ => some "disk full")).writes = [] ∧
    (processGuideline "./output" "g" ["a1.pdf"]
        (fun _ => ExtractOutcome.ok ["X"]) (fun _ => some "disk full")).masterContent
      = "X" := by
  decide

/-- C4 (amended): the joined text is appended to the accumulator first
and the per-file artifact is written afterwards; a document failing at
extraction (empty result or exception) contributes nothing to the
master artifact, but a document whose extraction succeeds and whose
artifact write then fails still contributes its joined text. -/
theorem c4_accumulator (out g : String) (listing : List String)
    (extract : String → ExtractOutcome) (wRes : String → Option String) :
    (processGuideline out g listing extract wRes).combined
      = (pySorted natural_sort_key listing).filterMap (successText extract) ∧
    (∀ f msg, extract f = ExtractOutcome.error msg → successText extract f = none) ∧
    (∀ f, extract f = ExtractOutcome.ok [] → successText extract f = none) := by
  refine ⟨processGuideline_combined out g listing extract wRes, ?_, ?_⟩
  · intro f msg hex
    cases hpdf : endsWithPdf f.data <;> simp [successText, hpdf, hex]
  · intro f hex
    cases hpdf : endsWithPdf f.data <;> simp [successText, hpdf, hex]

/-- Witness for C4 at a one-file folder whose extraction raises. -/
theorem c4_accumulator_witness :
    (processGuideline "./output" "g" ["a.pdf"]
        (fun _ => ExtractOutcome.error "E") (fun _ => none)).combined
      = (pySorted natural_sort_key ["a.pdf"]).filterMap
          (successText (fun _ => ExtractOutcome.error "E")) ∧
    successText (fun _ => ExtractOutcome.error "E") "a.pdf" = none := by
  have h := c4_accumulator "./output" "g" ["a.pdf"]
    (fun _ => ExtractOutcome.error "E") (fun _ => none)
  exact ⟨h.1, h.2.1 "a.pdf" "E" rfl⟩

/-- C5: per-document failures never abort the batch: an empty extraction
adds only a warning line and changes nothing else, a raised extraction
error adds only an error line naming the file, and the guideline still
produces its master artifact at the expected path. -/
theorem c5_failures_skip (outDir : String) (extract : String → ExtractOutcome)
    (wRes : String → Option String) (st : GState) (f : String)
    (hpdf : endsWithPdf f.data = true) :
    (extract f = ExtractOutcome.ok [] →
      stepFile outDir extract wRes st f
        = { st with events := st.events ++ [Event.warnEmpty f] }) ∧
    (∀ msg, extract f = ExtractOutcome.error msg →
      stepFile outDir extract wRes st f
        = { st with events := st.events ++ [Event.errorLog f msg] }) ∧
    (∀ (out g : String) (listing : List String),
      (processGuideline out g listing extract wRes).masterPath
        = pathJoin (pathJoin out g) (g ++ "_combined.txt")) := by
  refine ⟨?_, ?_, ?_⟩
  · intro hex
    simp [stepFile, hpdf, hex]
  · intro msg hex
    simp [stepFile, hpdf, hex]
  · intro out g listing
    exact processGuideline_masterPath out g listing extract wRes

/-- Witness for C5: an empty extraction on `a.pdf` only logs a warning. -/
theorem c5_failures_skip_witness :
    stepFile "./output/g" (fun _ => ExtractOutcome.ok []) (fun _ => none)
      ⟨["T"], [], []⟩ "a.pdf"
      = { combined := ["T"], writes := [], events := [Event.warnEmpty "a.pdf"] } := by
  have h := c5_failures_skip "./output/g" (fun _ => ExtractOutcome.ok [])
    (fun _ => none) ⟨["T"], [], []⟩ "a.pdf" (by decide)
  simpa using h.1 rfl

/-- C6: a guideline folder with no PDFs, or all of whose extractions
fail or come back empty, still gets its master artifact, with empty
content. -/
theorem c6_empty_master (out g : String) (listing : List String)
    (extract : String → ExtractOutcome) (wRes : String → Option String)
    (hall : ∀ f ∈ listing, successText extract f = none) :
    (processGuideline out g listing extract wRes).masterContent = "" ∧
    (processGuideline out g listing extract wRes).masterPath
      = pathJoin (pathJoin out g) (g ++ "_combined.txt") := by
  refine ⟨?_, processGuideline_masterPath out g listing extract wRes⟩
  rw [processGuideline_master]
  have hnil : (pySorted natural_sort_key listing).filterMap (successText extract) = [] :=
    List.filterMap_eq_nil_iff.mpr
      (fun f hf => hall f ((pySorted_perm natural_sort_key listing).mem_iff.mp hf))
  rw [hnil]
  rfl

/-- Witness for C6: a folder whose only PDF fails to extract, plus a
stray non-PDF file, yields an empty master artifact. -/
theorem c6_empty_master_witness :
    (processGuideline "./output" "g" ["notes.txt", "a.pdf"]
        (fun _ => ExtractOutcome.error "boom") (fun _ => none)).masterContent = "" ∧
    (processGuideline "./output" "g" ["notes.txt", "a.pdf"]
        (fun _ => ExtractOutcome.error "boom") (fun _ => none)).masterPath
      = pathJoin (pathJoin "./output" "g") ("g" ++ "_combined.txt") :=
  c6_empty_master "./output" "g" ["notes.txt", "a.pdf"]
    (fun _ => ExtractOutcome.error "boom") (fun _ => none) (by decide)

/-- C8: only `.pdf` files directly inside an immediate subdirectory of
the input root are processed: a non-PDF entry leaves the loop state
untouched (no artifact, no log line), a non-directory entry in the input
root contributes nothing to the run, the run reads directory listings
only at the immediate subdirectories (never deeper), and the extraction
collaborator is consulted only on `.pdf` names. -/
theorem c8_only_top_level_pdfs :
    (∀ (outDir : String) (extract : String → ExtractOutcome)
      (wRes : String → Option String) (st : GState) (f : String),
      endsWithPdf f.data = false → stepFile outDir extract wRes st f = st) ∧
    (∀ (pd od : String) (isDir : String → Bool) (listDir : String → List String)
      (extract : String → ExtractOutcome) (wRes : String → Option String)
      (l1 l2 : List String) (g : String),
      isDir (pathJoin pd g) = false →
      parse_guidelines pd od (l1 ++ g :: l2) isDir listDir extract wRes
        = parse_guidelines pd od (l1 ++ l2) isDir listDir extract wRes) ∧
    (∀ (pd od : String) (rootListing : List String) (isDir : String → Bool)
      (ld1 ld2 : String → List String) (extract : String → ExtractOutcome)
      (wRes : String → Option String),
      (∀ g ∈ rootListing, ld1 (pathJoin pd g) = ld2 (pathJoin pd g)) →
      parse_guidelines pd od rootListing isDir ld1 extract wRes
        = parse_guidelines pd od rootListing isDir ld2 extract wRes) ∧
    (∀ (out g : String) (listing : List String)
      (e1 e2 : String → ExtractOutcome) (wRes : String → Option String),
      (∀ f, endsWithPdf f.data = true → e1 f = e2 f) →
      processGuideline out g listing e1 wRes = processGuideline out g listing e2 wRes) := by
  refine ⟨stepFile_not_pdf, ?_, ?_, ?_⟩
  · intro pd od isDir listDir extract wRes l1 l2 g hdir
    unfold parse_guidelines
    rw [List.filterMap_append, List.filterMap_append, List.filterMap_cons]
    rw [if_neg (by simp [hdir])]
  · intro pd od rootListing isDir ld1 ld2 extract wRes h
    unfold parse_guidelines
    apply filterMap_congr_mem
    intro g hg
    rw [h g hg]
  · intro out g listing e1 e2 wRes h
    exact processGuideline_extract_congr out g listing e1 e2 wRes h

/-- Witness for C8: a stray text file changes nothing, a non-directory
root entry is skipped, deeper listings are irrelevant, and two
collaborators agreeing on `.pdf` names give identical runs. -/
theorem c8_only_top_level_pdfs_witness :
    stepFile "./output/g" (fun _ => ExtractOutcome.ok ["X"]) (fun _ => none)
      ⟨[], [], []⟩ "notes.txt" = ⟨[], [], []⟩ ∧
    parse_guidelines "./pdfs" "./output" (["g1"] ++ "stray.txt" :: [])
        (fun d => decide (d = pathJoin "./pdfs" "g1"))
        (fun _ => ["a.pdf"]) (fun _ => ExtractOutcome.ok ["X"]) (fun _ => none)
      = parse_guidelines "./pdfs" "./output" (["g1"] ++ [])
        (fun d => decide (d = pathJoin "./pdfs" "g1"))
        (fun _ => ["a.pdf"]) (fun _ => ExtractOutcome.ok ["X"]) (fun _ => none) ∧
    processGuideline "./output" "g" ["a.pdf"]
        (fun f => if endsWithPdf f.data then ExtractOutcome.ok ["X"]
          else ExtractOutcome.error "ignored")
        (fun _ => none)
      = processGuideline "./output" "g" ["a.pdf"]
        (fun f => if endsWithPdf f.data then ExtractOutcome.ok ["X"]
          else ExtractOutcome.error "other")
        (fun _ => none) := by
  refine ⟨?_, ?_, ?_⟩
  · exact c8_only_top_level_pdfs.1 "./output/g" (fun _ => ExtractOutcome.ok ["X"])
      (fun _ => none) ⟨[], [], []⟩ "notes.txt" (by decide)
  · exact c8_only_top_level_pdfs.2.1 "./pdfs" "./output"
      (fun d => decide (d = pathJoin "./pdfs" "g1")) (fun _ => ["a.pdf"])
      (fun _ => ExtractOutcome.ok ["X"]) (fun _ => none) ["g1"] [] "stray.txt"
      (by decide)
  · exact c8_only_top_level_pdfs.2.2.2 "./output" "g" ["a.pdf"]
      (fun f => if endsWithPdf f.data then ExtractOutcome.ok ["X"]
        else ExtractOutcome.error "ignored")
      (fun f => if endsWithPdf f.data then ExtractOutcome.ok ["X"]
        else ExtractOutcome.error "other")
      (fun _ => none)
      (fun f hf => by simp only [if_pos hf])
